import Mathlib

/-!
Verification of the in-memory contact directory (virtual_assistant.py):
validated Phone/Birthday fields, Record phone operations, the AddressBook
mapping, and the upcoming-birthday window query.

The Python code is shallowly embedded:
* strings are Lean `String`s (sequences of Unicode code points, as in Python);
* operations that can raise `ValueError` return `Except String _`;
* mutation is modelled by returning the updated value; an operation that
  raises leaves the original value in place (`applyOp`);
* `datetime.date` is a (year, month, day) triple; date ordering, ordinals,
  weekdays and `replace` are embedded with explicit proleptic-Gregorian
  arithmetic matching CPython's `datetime` module;
* `date.today()` is an explicit parameter `systemToday` threaded into
  `getUpcomingBirthdays`, standing for the value the system clock returns
  at the moment the Python method executes.
-/

/-- Model of Python's `str.isdigit` character test, which is true for every
character with Unicode property Numeric_Type = Digit or Decimal.  The model
covers the ASCII digits plus the common non-ASCII digit code points
(superscripts, subscripts, Arabic-Indic, extended Arabic-Indic, Devanagari
and fullwidth digits); the remaining code points of the full Unicode class
behave the same way as the representatives included here. -/
def pyCharIsDigit (c : Char) : Bool :=
  (48 ≤ c.toNat && c.toNat ≤ 57)
  || c.toNat = 178 || c.toNat = 179 || c.toNat = 185
  || (0x660 ≤ c.toNat && c.toNat ≤ 0x669)
  || (0x6F0 ≤ c.toNat && c.toNat ≤ 0x6F9)
  || (0x966 ≤ c.toNat && c.toNat ≤ 0x96F)
  || c.toNat = 0x2070 || (0x2074 ≤ c.toNat && c.toNat ≤ 0x2079)
  || (0x2080 ≤ c.toNat && c.toNat ≤ 0x2089)
  || (0xFF10 ≤ c.toNat && c.toNat ≤ 0xFF19)

/-- Python's `s.isdigit()`: true iff `s` is nonempty and every character is a
digit in the `str.isdigit` sense. -/
def pyIsDigit (s : String) : Bool :=
  !s.data.isEmpty && s.data.all pyCharIsDigit

/-- Embedding of the `Phone.__init__` / `Phone._validate_phone` pair
(virtual_assistant.py lines 23-36): checks `isdigit` first, then that the
length is exactly `PHONE_LENGTH = 10`; on success the stored value is the
input string itself. -/
def Phone.construct (s : String) : Except String String :=
  if !pyIsDigit s then .error "Phone must contain only digits."
  else if s.length ≠ 10 then .error "Phone must be exactly 10 digits"
  else .ok s

/-- Gregorian leap-year test, as used by `datetime.date`. -/
def isLeap (y : Nat) : Bool :=
  decide (y % 4 = 0 ∧ (¬ y % 100 = 0 ∨ y % 400 = 0))

/-- Number of days in month `m` of year `y` (0 for an out-of-range month). -/
def daysInMonth (y m : Nat) : Nat :=
  match m with
  | 1 => 31 | 2 => if isLeap y then 29 else 28 | 3 => 31 | 4 => 30
  | 5 => 31 | 6 => 30 | 7 => 31 | 8 => 31 | 9 => 30 | 10 => 31
  | 11 => 30 | 12 => 31 | _ => 0

/-- Cumulative days before month `m` in a non-leap year. -/
def daysBeforeMonth (m : Nat) : Nat :=
  match m with
  | 1 => 0 | 2 => 31 | 3 => 59 | 4 => 90 | 5 => 120 | 6 => 151
  | 7 => 181 | 8 => 212 | 9 => 243 | 10 => 273 | 11 => 304 | 12 => 334
  | _ => 0

/-- Embedding of `datetime.date`: a year/month/day triple.  Validity is a
separate predicate (`PyDate.validB`), checked exactly where CPython checks
it (construction and `replace`). -/
structure PyDate where
  year : Nat
  month : Nat
  day : Nat
deriving DecidableEq, Repr

/-- The `datetime.date` constructor's validity check: `MINYEAR = 1`,
`MAXYEAR = 9999`, month in 1..12, day in 1..days-in-month. -/
def PyDate.validB (x : PyDate) : Bool :=
  decide (1 ≤ x.year ∧ x.year ≤ 9999 ∧ 1 ≤ x.month ∧ x.month ≤ 12 ∧
    1 ≤ x.day ∧ x.day ≤ daysInMonth x.year x.month)

/-- Proleptic-Gregorian ordinal of a date, with 0001-01-01 mapped to 1,
matching CPython's `date.toordinal`. -/
def PyDate.toOrdinal (x : PyDate) : Nat :=
  let p := x.year - 1
  365 * p + p / 4 + p / 400 - p / 100 + daysBeforeMonth x.month +
    (if 2 < x.month ∧ isLeap x.year then 1 else 0) + x.day

/-- Python's `date.weekday()`: Monday = 0 .. Sunday = 6. -/
def PyDate.weekday (x : PyDate) : Nat :=
  (x.toOrdinal + 6) % 7

/-- Python's `<` on dates: lexicographic on (year, month, day), which agrees
with ordinal comparison on valid dates. -/
def PyDate.ltB (a b : PyDate) : Bool :=
  decide (a.year < b.year ∨ (a.year = b.year ∧ (a.month < b.month ∨
    (a.month = b.month ∧ a.day < b.day))))

/-- Successor day in the Gregorian calendar, rolling over month and year. -/
def PyDate.nextDay (x : PyDate) : PyDate :=
  if x.day < daysInMonth x.year x.month then ⟨x.year, x.month, x.day + 1⟩
  else if x.month < 12 then ⟨x.year, x.month + 1, 1⟩
  else ⟨x.year + 1, 1, 1⟩

/-- Python's `d + timedelta(days=n)` for a nonnegative day count, as iterated
day successor (equivalent to ordinal arithmetic on valid dates). -/
def PyDate.addDays (x : PyDate) (n : Nat) : PyDate :=
  PyDate.nextDay^[n] x

/-- Python's `(b - a).days`: difference of ordinals as an integer. -/
def daysFrom (a b : PyDate) : Int :=
  (b.toOrdinal : Int) - (a.toOrdinal : Int)

/-- Python's `b.replace(year = y)`: rebuilds the date with the new year and
revalidates it, raising `ValueError` when the result is not a valid date
(e.g. Feb 29 in a non-leap year, or a year outside 1..9999). -/
def PyDate.replaceYear (b : PyDate) (y : Nat) : Except String PyDate :=
  if PyDate.validB ⟨y, b.month, b.day⟩ then .ok ⟨y, b.month, b.day⟩
  else .error "ValueError: day is out of range for month"

/-- ASCII digit value of a character (meaningful for digit characters). -/
def dval (c : Char) : Nat := c.toNat - 48

/-- Day field of CPython's `_strptime` regex for `%d`, namely
`3[01]|[12]\d|0[1-9]|[1-9]` (digit classes restricted to ASCII): consumes a
two-digit day when the two leading characters match one of the two-digit
alternatives, otherwise a single digit 1-9.  Returns the numeric value and
the unconsumed characters. -/
def parseDayField : List Char → Option (Nat × List Char)
  | c1 :: c2 :: rest =>
    if c1.isDigit ∧ c2.isDigit ∧ (dval c1 = 3 ∧ dval c2 ≤ 1 ∨ dval c1 = 1 ∨
        dval c1 = 2 ∨ dval c1 = 0 ∧ 1 ≤ dval c2) then
      some (10 * dval c1 + dval c2, rest)
    else if c1.isDigit ∧ 1 ≤ dval c1 then some (dval c1, c2 :: rest)
    else none
  | [c1] => if c1.isDigit ∧ 1 ≤ dval c1 then some (dval c1, []) else none
  | [] => none

/-- Month field of CPython's `_strptime` regex for `%m`, namely
`1[0-2]|0[1-9]|[1-9]`. -/
def parseMonthField : List Char → Option (Nat × List Char)
  | c1 :: c2 :: rest =>
    if c1.isDigit ∧ c2.isDigit ∧ (dval c1 = 1 ∧ dval c2 ≤ 2 ∨
        dval c1 = 0 ∧ 1 ≤ dval c2) then
      some (10 * dval c1 + dval c2, rest)
    else if c1.isDigit ∧ 1 ≤ dval c1 then some (dval c1, c2 :: rest)
    else none
  | [c1] => if c1.isDigit ∧ 1 ≤ dval c1 then some (dval c1, []) else none
  | [] => none

/-- Year field of CPython's `_strptime` regex for `%Y`: exactly four digits. -/
def parseYearField : List Char → Option (Nat × List Char)
  | c1 :: c2 :: c3 :: c4 :: rest =>
    if c1.isDigit ∧ c2.isDigit ∧ c3.isDigit ∧ c4.isDigit then
      some (1000 * dval c1 + 100 * dval c2 + 10 * dval c3 + dval c4, rest)
    else none
  | _ => none

/-- The complete `strptime` match against the format `"%d.%m.%Y"`: day field,
literal dot, month field, literal dot, year field, end of input (leftover
characters are the "unconverted data remains" error). -/
def parseDMY (cs : List Char) : Option (Nat × Nat × Nat) :=
  match parseDayField cs with
  | none => none
  | some (d, cs1) =>
    match cs1 with
    | '.' :: cs2 =>
      match parseMonthField cs2 with
      | none => none
      | some (m, cs3) =>
        match cs3 with
        | '.' :: cs4 =>
          match parseYearField cs4 with
          | none => none
          | some (y, cs5) => if cs5 = [] then some (d, m, y) else none
        | _ => none
    | _ => none

/-- Embedding of `datetime.strptime(value, "%d.%m.%Y").date()`: regex match
followed by the `datetime` constructor's calendar validation. -/
def pyStrptimeDate (s : String) : Option PyDate :=
  match parseDMY s.data with
  | none => none
  | some (d, m, y) =>
    if PyDate.validB ⟨y, m, d⟩ then some ⟨y, m, d⟩ else none

/-- Embedding of `Birthday.__init__` (virtual_assistant.py lines 39-45):
parse with `strptime`, converting any `ValueError` into the fixed message. -/
def Birthday.construct (s : String) : Except String PyDate :=
  match pyStrptimeDate s with
  | some d => .ok d
  | none => .error "Invalid date format. Use %d.%m.%Y"

/-- Two-digit zero-padded rendering of a number below 100. -/
def pad2 (n : Nat) : List Char :=
  [Nat.digitChar (n / 10), Nat.digitChar (n % 10)]

/-- Four-digit zero-padded rendering of a number below 10000. -/
def pad4 (n : Nat) : List Char :=
  [Nat.digitChar (n / 1000), Nat.digitChar (n / 100 % 10),
   Nat.digitChar (n / 10 % 10), Nat.digitChar (n % 10)]

/-- Embedding of `d.strftime("%d.%m.%Y")` (documented zero-padded `%d`, `%m`
and `%Y` directives). -/
def pyStrftime (d : PyDate) : String :=
  ⟨pad2 d.day ++ '.' :: pad2 d.month ++ '.' :: pad4 d.year⟩

/-- Embedding of `Record` (virtual_assistant.py lines 49-103): a name, the
ordered list of stored phone values (each `Phone` object is represented by
its `.value` string) and an optional birthday date. -/
structure Record where
  name : String
  phones : List String
  birthday : Option PyDate
deriving DecidableEq, Repr

/-- Embedding of `Record.__init__`: name as given, no phones, no birthday. -/
def Record.mkNew (name : String) : Record :=
  ⟨name, [], none⟩

/-- Embedding of `Record.find_phone`: first stored phone whose value equals
the argument, or `none`. -/
def Record.findPhone (r : Record) (p : String) : Option String :=
  r.phones.find? (fun q => q == p)

/-- Embedding of `Record.add_phone` (lines 59-68): the duplicate check runs
first (a found `Phone` object is truthy), then `Phone` construction, then
the append. -/
def Record.addPhone (r : Record) (raw : String) : Except String Record :=
  if (r.findPhone raw).isSome then .error "This phone is already added."
  else
    match Phone.construct raw with
    | .error e => .error e
    | .ok v => .ok { r with phones := r.phones ++ [v] }

/-- List-level embedding of the loop in `Record.remove_phone`: drop the first
element equal to `p`, reporting whether one was found. -/
def removeList (p : String) : List String → List String × Bool
  | [] => ([], false)
  | q :: rest =>
    if q = p then (rest, true)
    else
      let lb := removeList p rest
      (q :: lb.1, lb.2)

/-- Embedding of `Record.remove_phone` (lines 77-83). -/
def Record.removePhone (r : Record) (p : String) : Record × Bool :=
  let lb := removeList p r.phones
  ({ r with phones := lb.1 }, lb.2)

/-- List-level embedding of the loop in `Record.edit_phone`: at the first
element equal to `old`, construct a `Phone` from `new` (propagating its
validation error) and replace that element in place; if no element matches,
report `false` without constructing anything. -/
def editList (old new : String) : List String → Except String (List String × Bool)
  | [] => .ok ([], false)
  | p :: rest =>
    if p = old then
      match Phone.construct new with
      | .error e => .error e
      | .ok v => .ok (v :: rest, true)
    else
      match editList old new rest with
      | .error e => .error e
      | .ok lb => .ok (p :: lb.1, lb.2)

/-- Embedding of `Record.edit_phone` (lines 85-94). -/
def Record.editPhone (r : Record) (old new : String) :
    Except String (Record × Bool) :=
  match editList old new r.phones with
  | .error e => .error e
  | .ok lb => .ok ({ r with phones := lb.1 }, lb.2)

/-- Embedding of `Record.add_birthday` (lines 96-98): construct a `Birthday`
(propagating errors) and store/overwrite it. -/
def Record.addBirthday (r : Record) (raw : String) : Except String Record :=
  match Birthday.construct raw with
  | .error e => .error e
  | .ok b => .ok { r with birthday := some b }

/-- One user-visible mutation of a `Record`. -/
inductive Op where
  | addPhone (raw : String)
  | removePhone (raw : String)
  | editPhone (old new : String)
  | addBirthday (raw : String)
deriving DecidableEq, Repr

/-- State transition of a `Record` under one operation.  A raising operation
leaves the Python object unchanged (the exception propagates before any
mutation), so the state is kept as-is on `.error`. -/
def applyOp (r : Record) (op : Op) : Record :=
  match op with
  | .addPhone raw =>
    match r.addPhone raw with
    | .ok r2 => r2
    | .error _ => r
  | .removePhone raw => (r.removePhone raw).1
  | .editPhone old new =>
    match r.editPhone old new with
    | .ok rb => rb.1
    | .error _ => r
  | .addBirthday raw =>
    match r.addBirthday raw with
    | .ok r2 => r2
    | .error _ => r

/-- Run a sequence of operations from a starting record. -/
def runOps (r : Record) : List Op → Record
  | [] => r
  | op :: rest => runOps (applyOp r op) rest

/-- Safety guard for a single operation at a state: `editPhone old new` must
either rewrite a value to itself or introduce a value not currently stored;
all other operations are unconditionally safe. -/
def opSafe (r : Record) : Op → Bool
  | .editPhone old new => new == old || !(r.phones.contains new)
  | _ => true

/-- Guard under which a trace of operations cannot create duplicate phones:
every operation is safe (`opSafe`) at the state where it executes. -/
def editSafe : Record → List Op → Bool
  | _, [] => true
  | r, op :: rest => opSafe r op && editSafe (applyOp r op) rest

/-- The `AddressBook`'s `self.data` dict, in iteration (= insertion) order. -/
def AddressBook := List (String × Record)

/-- Python dict assignment `self.data[k] = v`: updates the value in place at
an existing key (keeping its position) or appends a new entry. -/
def dictInsert : List (String × Record) → String → Record → List (String × Record)
  | [], k, v => [(k, v)]
  | (k1, v1) :: rest, k, v =>
    if k1 = k then (k1, v) :: rest else (k1, v1) :: dictInsert rest k v

/-- Embedding of `AddressBook.add_record` (lines 109-111). -/
def addRecord (book : List (String × Record)) (r : Record) :
    List (String × Record) :=
  dictInsert book r.name r

/-- Embedding of `AddressBook.find` (lines 113-115): `dict.get`. -/
def findRec : List (String × Record) → String → Option Record
  | [], _ => none
  | (k, v) :: rest, n => if k = n then some v else findRec rest n

/-- One output element of `get_upcoming_birthdays`: the dict
`{'name': ..., 'congratulation_date': ...}`. -/
structure UBEntry where
  name : String
  congratulation_date : String
deriving DecidableEq, Repr

/-- The projection of a stored birthday into the window year, embedding lines
140-143: replace the year with today's year, and if the result is strictly
before today replace with next year instead; either `replace` can raise. -/
def birthdayThisYear (today b : PyDate) : Except String PyDate :=
  match b.replaceYear today.year with
  | .error e => .error e
  | .ok bty =>
    if bty.ltB today then b.replaceYear (today.year + 1) else .ok bty

/-- The weekend adjustment of lines 150-153: weekdays 5 (Saturday) and 6
(Sunday) are shifted forward by `7 - weekday` days, landing on Monday. -/
def weekendAdjust (d : PyDate) : PyDate :=
  if 5 ≤ d.weekday then d.addDays (7 - d.weekday) else d

/-- Processing of a single record inside the loop of
`get_upcoming_birthdays` (lines 133-158): skip records without a birthday;
project the birthday into the window year; keep it when
`0 ≤ days_until_birthday ≤ 7`; emit the weekend-adjusted date formatted
with `strftime`. -/
def processEntry (today : PyDate) (r : Record) : Except String (Option String) :=
  match r.birthday with
  | none => .ok none
  | some b =>
    match birthdayThisYear today b with
    | .error e => .error e
    | .ok bty =>
      if 0 ≤ daysFrom today bty ∧ daysFrom today bty ≤ 7 then
        .ok (some (pyStrftime (weekendAdjust bty)))
      else .ok none

/-- Embedding of `AddressBook.get_upcoming_birthdays` (lines 128-159).  The
Python method takes no date argument; `systemToday` is the value
`date.today()` returns when the method runs.  The records are visited in
dict iteration order and the first raising record aborts the whole call. -/
def getUpcomingBirthdays : List (String × Record) → PyDate →
    Except String (List UBEntry)
  | [], _ => .ok []
  | (n, r) :: rest, systemToday =>
    match processEntry systemToday r with
    | .error e => .error e
    | .ok none => getUpcomingBirthdays rest systemToday
    | .ok (some s) =>
      match getUpcomingBirthdays rest systemToday with
      | .error e => .error e
      | .ok tail => .ok (⟨n, s⟩ :: tail)

/-! ### Basic facts about the embedded operations -/

/-- A successfully constructed Phone stores exactly the input string. -/
theorem Phone.construct_ok_eq {s t : String} (h : Phone.construct s = .ok t) :
    t = s := by
  unfold Phone.construct at h
  split_ifs at h
  exact (Except.ok.injEq _ _ ▸ h).symm

theorem phone_construct_ok_iff (s : String) :
    (∃ t, Phone.construct s = .ok t) ↔
      (s.data.all pyCharIsDigit = true ∧ s.length = 10) := by
  constructor
  · rintro ⟨t, ht⟩
    unfold Phone.construct at ht
    split_ifs at ht with h1 h2
    refine ⟨?_, by omega⟩
    have h1' : pyIsDigit s = true := by
      cases hpy : pyIsDigit s
      · exact absurd (by simp [hpy]) h1
      · rfl
    unfold pyIsDigit at h1'
    exact (Bool.and_eq_true _ _ ▸ h1').2
  · rintro ⟨hall, hlen⟩
    have hne : s.data ≠ [] := by
      intro h
      rw [show s.length = s.data.length from rfl, h] at hlen
      simp at hlen
    have hpy : pyIsDigit s = true := by
      unfold pyIsDigit
      simp [hall, hne]
    refine ⟨s, ?_⟩
    unfold Phone.construct
    rw [if_neg (by simp [hpy]), if_neg (by omega)]

/-- A ten-character string of U+00B2 (superscript two) characters: each one
satisfies Python's `str.isdigit` but is not an ASCII digit. -/
def supStr : String := ⟨List.replicate 10 (Char.ofNat 178)⟩

/-- C4 counterexample: `Phone.construct` accepts a 10-character string none
of whose characters is an ASCII digit (all are U+00B2, which `str.isdigit`
classifies as a digit), contradicting the claim that construction fails
whenever a non-ASCII-digit character is present. -/
theorem phone_accepts_nonascii_digits :
    Phone.construct supStr = .ok supStr ∧
    supStr.length = 10 ∧
    supStr.data.all (fun c => decide (48 ≤ c.toNat ∧ c.toNat ≤ 57)) = false ∧
    supStr.data.all (fun c => decide (c.toNat ≤ 127)) = false :=
  ⟨rfl, by decide, by decide, by decide⟩

/-- C4 (amended): `Phone.construct s` succeeds exactly when `s` has length 10
and every character is a digit in Python's `str.isdigit` sense (which
includes some non-ASCII digits); on success the stored value is `s` itself;
in particular every string of exactly ten ASCII digits is accepted. -/
theorem phone_construct_spec (s : String) :
    ((∃ t, Phone.construct s = .ok t) ↔
      (s.data.all pyCharIsDigit = true ∧ s.length = 10)) ∧
    (∀ t, Phone.construct s = .ok t → t = s) ∧
    (s.length = 10 → (∀ c ∈ s.data, 48 ≤ c.toNat ∧ c.toNat ≤ 57) →
      Phone.construct s = .ok s) := by
  refine ⟨phone_construct_ok_iff s, fun t ht => Phone.construct_ok_eq ht, ?_⟩
  intro hlen hascii
  have hall : s.data.all pyCharIsDigit = true := by
    rw [List.all_eq_true]
    intro c hc
    have := hascii c hc
    unfold pyCharIsDigit
    simp only [Bool.or_eq_true, Bool.and_eq_true, decide_eq_true_eq]
    omega
  obtain ⟨t, ht⟩ := (phone_construct_ok_iff s).mpr ⟨hall, hlen⟩
  rwa [Phone.construct_ok_eq ht] at ht

/-- C4 witness: the ten-ASCII-digit string "1234567890" is accepted. -/
theorem phone_construct_spec_witness :
    Phone.construct "1234567890" = .ok "1234567890" :=
  (phone_construct_spec "1234567890").2.2 (by decide) (by decide)

/-! ### Round-trip of the DD.MM.YYYY format -/

theorem dval_digitChar (k : Nat) (hk : k < 10) : dval (Nat.digitChar k) = k := by
  interval_cases k <;> decide

theorem isDigit_digitChar (k : Nat) (hk : k < 10) :
    (Nat.digitChar k).isDigit = true := by
  interval_cases k <;> decide

theorem parseDayField_pad2 (d : Nat) (h1 : 1 ≤ d) (h2 : d ≤ 31)
    (rest : List Char) : parseDayField (pad2 d ++ rest) = some (d, rest) := by
  have ha : d / 10 < 10 := by omega
  have hb : d % 10 < 10 := by omega
  show parseDayField
    (Nat.digitChar (d / 10) :: Nat.digitChar (d % 10) :: rest) = some (d, rest)
  simp only [parseDayField, dval_digitChar _ ha, dval_digitChar _ hb,
    isDigit_digitChar _ ha, isDigit_digitChar _ hb]
  split_ifs with hc1 hc2
  · rw [Nat.div_add_mod]
  · exact absurd ⟨trivial, trivial, by omega⟩ hc1
  · exact absurd ⟨trivial, trivial, by omega⟩ hc1

theorem parseMonthField_pad2 (m : Nat) (h1 : 1 ≤ m) (h2 : m ≤ 12)
    (rest : List Char) : parseMonthField (pad2 m ++ rest) = some (m, rest) := by
  have ha : m / 10 < 10 := by omega
  have hb : m % 10 < 10 := by omega
  show parseMonthField
    (Nat.digitChar (m / 10) :: Nat.digitChar (m % 10) :: rest) = some (m, rest)
  simp only [parseMonthField, dval_digitChar _ ha, dval_digitChar _ hb,
    isDigit_digitChar _ ha, isDigit_digitChar _ hb]
  split_ifs with hc1 hc2
  · rw [Nat.div_add_mod]
  · exact absurd ⟨trivial, trivial, by omega⟩ hc1
  · exact absurd ⟨trivial, trivial, by omega⟩ hc1

theorem parseYearField_pad4 (y : Nat) (hy : y ≤ 9999) (rest : List Char) :
    parseYearField (pad4 y ++ rest) = some (y, rest) := by
  have h1 : y / 1000 < 10 := by omega
  have h2 : y / 100 % 10 < 10 := by omega
  have h3 : y / 10 % 10 < 10 := by omega
  have h4 : y % 10 < 10 := by omega
  show parseYearField (Nat.digitChar (y / 1000) :: Nat.digitChar (y / 100 % 10)
    :: Nat.digitChar (y / 10 % 10) :: Nat.digitChar (y % 10) :: rest)
    = some (y, rest)
  simp only [parseYearField, dval_digitChar _ h1, dval_digitChar _ h2,
    dval_digitChar _ h3, dval_digitChar _ h4, isDigit_digitChar _ h1,
    isDigit_digitChar _ h2, isDigit_digitChar _ h3, isDigit_digitChar _ h4]
  split_ifs with hc
  · have : 1000 * (y / 1000) + 100 * (y / 100 % 10) + 10 * (y / 10 % 10)
        + y % 10 = y := by omega
    rw [this]
  · exact absurd ⟨trivial, trivial, trivial, trivial⟩ hc

theorem daysInMonth_le (y m : Nat) : daysInMonth y m ≤ 31 := by
  unfold daysInMonth
  split <;> first | omega | (split_ifs <;> omega)

theorem parseDMY_render (y m d : Nat) (hd1 : 1 ≤ d) (hd2 : d ≤ 31)
    (hm1 : 1 ≤ m) (hm2 : m ≤ 12) (hy : y ≤ 9999) :
    parseDMY (pad2 d ++ ('.' :: (pad2 m ++ ('.' :: pad4 y)))) = some (d, m, y) := by
  have h3 : parseYearField (pad4 y) = some (y, []) := by
    have := parseYearField_pad4 y hy []
    rwa [List.append_nil] at this
  have h1 := parseDayField_pad2 d hd1 hd2 ('.' :: (pad2 m ++ ('.' :: pad4 y)))
  have h2 := parseMonthField_pad2 m hm1 hm2 ('.' :: pad4 y)
  simp [parseDMY, h1, h2, h3]

theorem strptime_strftime (y m d : Nat) (hv : PyDate.validB ⟨y, m, d⟩ = true) :
    pyStrptimeDate (pyStrftime ⟨y, m, d⟩) = some ⟨y, m, d⟩ := by
  have hv' := hv
  unfold PyDate.validB at hv'
  rw [decide_eq_true_eq] at hv'
  obtain ⟨hy1, hy2, hm1, hm2, hd1, hd2⟩ := hv'
  have hd31 : d ≤ 31 := le_trans hd2 (daysInMonth_le y m)
  have hdata : (pyStrftime ⟨y, m, d⟩).data
      = pad2 d ++ ('.' :: (pad2 m ++ ('.' :: pad4 y))) := rfl
  rw [pyStrptimeDate, hdata, parseDMY_render y m d hd1 hd31 hm1 hm2 hy2]
  simp [hv]

/-- C5: for every string in strict DD.MM.YYYY form denoting a valid calendar
date, Birthday construction succeeds and `strftime` renders the stored date
back to exactly the same string; construction fails with the validation
error both for strings the `%d.%m.%Y` pattern does not match and for
strings matching the pattern but denoting an invalid calendar date. -/
theorem birthday_roundtrip :
    (∀ s : String,
      (∃ y m d : Nat, PyDate.validB ⟨y, m, d⟩ = true ∧ s = pyStrftime ⟨y, m, d⟩) →
      ∃ dt, Birthday.construct s = .ok dt ∧ pyStrftime dt = s) ∧
    (∀ s : String, pyStrptimeDate s = none →
      Birthday.construct s = .error "Invalid date format. Use %d.%m.%Y") ∧
    (∀ (s : String) (y m d : Nat), parseDMY s.data = some (d, m, y) →
      PyDate.validB ⟨y, m, d⟩ = false →
      Birthday.construct s = .error "Invalid date format. Use %d.%m.%Y") := by
  refine ⟨?_, ?_, ?_⟩
  · rintro s ⟨y, m, d, hv, rfl⟩
    refine ⟨⟨y, m, d⟩, ?_, rfl⟩
    rw [Birthday.construct, strptime_strftime y m d hv]
  · intro s h
    rw [Birthday.construct, h]
  · intro s y m d hp hv
    rw [Birthday.construct, pyStrptimeDate, hp]
    simp [hv]

/-- C5 witness: the concrete string "17.05.2024" round-trips. -/
theorem birthday_roundtrip_witness :
    ∃ dt, Birthday.construct "17.05.2024" = .ok dt ∧
      pyStrftime dt = "17.05.2024" :=
  birthday_roundtrip.1 "17.05.2024" ⟨2024, 5, 17, by decide, by decide⟩

/-! ### Record.edit_phone -/

theorem editList_not_mem (old new : String) :
    ∀ l : List String, old ∉ l → editList old new l = .ok (l, false) := by
  intro l
  induction l with
  | nil => intro _; rfl
  | cons p rest ih =>
    intro h
    have hp : ¬ p = old := fun he => h (he ▸ List.mem_cons_self p rest)
    have hr : old ∉ rest := fun hm => h (List.mem_cons_of_mem p hm)
    simp [editList, if_neg hp, ih hr]

theorem editList_error (old new e : String)
    (he : Phone.construct new = .error e) :
    ∀ l : List String, old ∈ l → editList old new l = .error e := by
  intro l
  induction l with
  | nil => intro h; exact absurd h (List.not_mem_nil old)
  | cons p rest ih =>
    intro h
    by_cases hp : p = old
    · simp [editList, if_pos hp, he]
    · have hr : old ∈ rest := by
        rcases List.mem_cons.mp h with h1 | h1
        · exact absurd h1.symm hp
        · exact h1
      simp [editList, if_neg hp, ih hr]

theorem editList_ok (old new : String)
    (hok : Phone.construct new = .ok new) :
    ∀ l : List String, old ∈ l →
      ∃ l1 l2, l = l1 ++ old :: l2 ∧ old ∉ l1 ∧
        editList old new l = .ok (l1 ++ new :: l2, true) := by
  intro l
  induction l with
  | nil => intro h; exact absurd h (List.not_mem_nil old)
  | cons p rest ih =>
    intro h
    by_cases hp : p = old
    · subst hp
      exact ⟨[], rest, rfl, List.not_mem_nil p, by simp [editList, hok]⟩
    · have hr : old ∈ rest := by
        rcases List.mem_cons.mp h with h1 | h1
        · exact absurd h1.symm hp
        · exact h1
      obtain ⟨l1, l2, heq, hnm, hrun⟩ := ih hr
      refine ⟨p :: l1, l2, by simp [heq], ?_, ?_⟩
      · intro hmem
        rcases List.mem_cons.mp hmem with h1 | h1
        · exact hp h1.symm
        · exact hnm h1
      · simp [editList, if_neg hp, hrun]

/-- C6: edit_phone with the old value present and an invalid new value
propagates the Phone validation error and leaves the record unchanged; with
the old value present and a valid new value it replaces the first matching
entry in place, preserving its position and the list length; with the old
value absent it returns false with no side effects. -/
theorem edit_phone_spec (r : Record) (old new : String) :
    (∀ e, old ∈ r.phones → Phone.construct new = .error e →
      r.editPhone old new = .error e ∧ applyOp r (.editPhone old new) = r) ∧
    (old ∈ r.phones → Phone.construct new = .ok new →
      ∃ l1 l2, r.phones = l1 ++ old :: l2 ∧ old ∉ l1 ∧
        r.editPhone old new = .ok ({ r with phones := l1 ++ new :: l2 }, true) ∧
        (l1 ++ new :: l2).length = r.phones.length) ∧
    (old ∉ r.phones →
      r.editPhone old new = .ok (r, false) ∧ applyOp r (.editPhone old new) = r) := by
  refine ⟨?_, ?_, ?_⟩
  · intro e hmem he
    have h1 : r.editPhone old new = .error e := by
      rw [Record.editPhone, editList_error old new e he r.phones hmem]
    exact ⟨h1, by rw [applyOp, h1]⟩
  · intro hmem hok
    obtain ⟨l1, l2, heq, hnm, hrun⟩ := editList_ok old new hok r.phones hmem
    refine ⟨l1, l2, heq, hnm, ?_, by simp [heq]⟩
    rw [Record.editPhone, hrun]
  · intro hmem
    have h1 : r.editPhone old new = .ok (r, false) := by
      rw [Record.editPhone, editList_not_mem old new r.phones hmem]
    exact ⟨h1, by rw [applyOp, h1]⟩

/-- Concrete record used to instantiate the edit_phone specification. -/
def rec6 : Record := ⟨"X", ["1234567890", "0987654321"], none⟩

/-- C6 witness: the three cases of edit_phone at concrete inputs. -/
theorem edit_phone_spec_witness :
    Record.editPhone rec6 "0987654321" "12"
        = .error "Phone must be exactly 10 digits" ∧
    (∃ l1 l2, rec6.phones = l1 ++ "0987654321" :: l2 ∧ "0987654321" ∉ l1 ∧
      Record.editPhone rec6 "0987654321" "1111111111"
          = .ok ({ rec6 with phones := l1 ++ "1111111111" :: l2 }, true) ∧
      (l1 ++ "1111111111" :: l2).length = rec6.phones.length) ∧
    Record.editPhone rec6 "5555555555" "1111111111" = .ok (rec6, false) :=
  ⟨((edit_phone_spec rec6 "0987654321" "12").1
      "Phone must be exactly 10 digits" (by decide) rfl).1,
   (fun ⟨l1, l2, ha, hb, hc, hd⟩ => ⟨l1, l2, ha, hb, hc, hd⟩)
     ((edit_phone_spec rec6 "0987654321" "1111111111").2.1 (by decide) rfl),
   ((edit_phone_spec rec6 "5555555555" "1111111111").2.2 (by decide)).1⟩

/-! ### Record.add_phone -/

theorem findPhone_isSome_iff (r : Record) (p : String) :
    (r.findPhone p).isSome = true ↔ p ∈ r.phones := by
  rw [Record.findPhone, List.find?_isSome]
  constructor
  · rintro ⟨x, hx, hbeq⟩
    rwa [show x = p from beq_iff_eq.mp hbeq] at hx
  · intro h
    exact ⟨p, h, beq_iff_eq.mpr rfl⟩

/-- C7: add_phone fails with the duplicate error when an equal phone value is
already stored (record unchanged), propagates the Phone validation error for
an invalid raw value not already stored (record unchanged), and otherwise
appends the new value at the end, growing the list by exactly one. -/
theorem add_phone_spec (r : Record) (raw : String) :
    (raw ∈ r.phones →
      r.addPhone raw = .error "This phone is already added." ∧
      applyOp r (.addPhone raw) = r) ∧
    (∀ e, raw ∉ r.phones → Phone.construct raw = .error e →
      r.addPhone raw = .error e ∧ applyOp r (.addPhone raw) = r) ∧
    (raw ∉ r.phones → Phone.construct raw = .ok raw →
      r.addPhone raw = .ok { r with phones := r.phones ++ [raw] } ∧
      (r.phones ++ [raw]).length = r.phones.length + 1) := by
  refine ⟨?_, ?_, ?_⟩
  · intro hmem
    have h1 : r.addPhone raw = .error "This phone is already added." := by
      rw [Record.addPhone, if_pos ((findPhone_isSome_iff r raw).mpr hmem)]
    exact ⟨h1, by rw [applyOp, h1]⟩
  · intro e hmem he
    have hf : ¬ (r.findPhone raw).isSome = true :=
      fun h => hmem ((findPhone_isSome_iff r raw).mp h)
    have h1 : r.addPhone raw = .error e := by
      rw [Record.addPhone, if_neg hf, he]
    exact ⟨h1, by rw [applyOp, h1]⟩
  · intro hmem hok
    have hf : ¬ (r.findPhone raw).isSome = true :=
      fun h => hmem ((findPhone_isSome_iff r raw).mp h)
    refine ⟨?_, by simp⟩
    rw [Record.addPhone, if_neg hf, hok]

/-- Concrete record used to instantiate the add_phone specification. -/
def rec7 : Record := ⟨"Y", ["1234567890"], none⟩

/-- C7 witness: the three cases of add_phone at concrete inputs. -/
theorem add_phone_spec_witness :
    Record.addPhone rec7 "1234567890" = .error "This phone is already added." ∧
    Record.addPhone rec7 "123" = .error "Phone must be exactly 10 digits" ∧
    Record.addPhone rec7 "5554443322"
        = .ok { rec7 with phones := rec7.phones ++ ["5554443322"] } ∧
    (rec7.phones ++ ["5554443322"]).length = rec7.phones.length + 1 :=
  ⟨((add_phone_spec rec7 "1234567890").1 (by decide)).1,
   ((add_phone_spec rec7 "123").2.1 "Phone must be exactly 10 digits"
      (by decide) rfl).1,
   ((add_phone_spec rec7 "5554443322").2.2 (by decide) rfl).1,
   ((add_phone_spec rec7 "5554443322").2.2 (by decide) rfl).2⟩

/-! ### AddressBook.add_record -/

theorem findRec_dictInsert_self :
    ∀ (book : List (String × Record)) (k : String) (v : Record),
      findRec (dictInsert book k v) k = some v := by
  intro book k v
  induction book with
  | nil => simp [dictInsert, findRec]
  | cons e rest ih =>
    obtain ⟨k1, v1⟩ := e
    by_cases h : k1 = k
    · simp [dictInsert, findRec, if_pos h, h]
    · simp [dictInsert, findRec, if_neg h, ih]

theorem findRec_dictInsert_other :
    ∀ (book : List (String × Record)) (k : String) (v : Record) (n : String),
      n ≠ k → findRec (dictInsert book k v) n = findRec book n := by
  intro book k v n hn
  induction book with
  | nil => simp [dictInsert, findRec, Ne.symm hn]
  | cons e rest ih =>
    obtain ⟨k1, v1⟩ := e
    by_cases h : k1 = k
    · have h1 : ¬ k1 = n := fun he => hn (he.symm.trans h)
      simp [dictInsert, findRec, if_pos h, if_neg h1]
    · by_cases h2 : k1 = n
      · simp [dictInsert, findRec, if_neg h, if_pos h2]
      · simp [dictInsert, findRec, if_neg h, if_neg h2, ih]

/-- C8: adding two Records with the same name leaves the entry for that name
equal to the second Record in its entirety (the first Record's phones and
birthday are gone, nothing is merged), and entries under every other name
are exactly what they were before both calls. -/
theorem add_record_replaces (book : List (String × Record)) (r1 r2 : Record)
    (h : r1.name = r2.name) :
    findRec (addRecord (addRecord book r1) r2) r2.name = some r2 ∧
    (∀ n, n ≠ r2.name →
      findRec (addRecord (addRecord book r1) r2) n = findRec book n) := by
  constructor
  · exact findRec_dictInsert_self (addRecord book r1) r2.name r2
  · intro n hn
    rw [addRecord, findRec_dictInsert_other _ _ _ _ hn, addRecord,
      findRec_dictInsert_other _ _ _ _ (h ▸ hn)]

/-- First Record stored under the name "John". -/
def johnOld : Record := ⟨"John", ["1234567890"], none⟩

/-- Second Record stored under the name "John". -/
def johnNew : Record := ⟨"John", ["0987654321"], some ⟨2000, 1, 1⟩⟩

/-- C8 witness: replacement at a concrete book. -/
theorem add_record_replaces_witness :
    findRec (addRecord (addRecord [("Jane", Record.mkNew "Jane")] johnOld)
        johnNew) johnNew.name = some johnNew ∧
    findRec (addRecord (addRecord [("Jane", Record.mkNew "Jane")] johnOld)
        johnNew) "Jane" = findRec [("Jane", Record.mkNew "Jane")] "Jane" :=
  ⟨(add_record_replaces [("Jane", Record.mkNew "Jane")] johnOld johnNew rfl).1,
   (add_record_replaces [("Jane", Record.mkNew "Jane")] johnOld johnNew rfl).2
     "Jane" (by decide)⟩

/-! ### Dependence of get_upcoming_birthdays on the system clock -/

/-- A record for contact "A" with birthday 01.01.2000, built through the
embedded operations. -/
def recA : Record := applyOp (Record.mkNew "A") (.addBirthday "01.01.2000")

/-- The one-contact book used to exhibit clock dependence. -/
def bookA : List (String × Record) := addRecord [] recA

/-- C2 counterexample: the Python method `get_upcoming_birthdays(self)` takes
no date parameter and reads `date.today()` internally (line 130), so its
output depends on the system clock: the same book yields different outputs
at two different clock dates.  This refutes the claim that the query
accepts an injected "today" rather than reading the system clock. -/
theorem ub_reads_system_clock :
    getUpcomingBirthdays bookA ⟨2024, 1, 1⟩
        = .ok [⟨"A", "01.01.2024"⟩] ∧
    getUpcomingBirthdays bookA ⟨2024, 6, 1⟩ = .ok [] ∧
    getUpcomingBirthdays bookA ⟨2024, 1, 1⟩
        ≠ getUpcomingBirthdays bookA ⟨2024, 6, 1⟩ := by
  refine ⟨rfl, rfl, ?_⟩
  intro h
  rw [show getUpcomingBirthdays bookA ⟨2024, 1, 1⟩
        = .ok [⟨"A", "01.01.2024"⟩] from rfl,
     show getUpcomingBirthdays bookA ⟨2024, 6, 1⟩
        = .ok ([] : List UBEntry) from rfl] at h
  simp at h

/-- C2 (amended): the query's output is a deterministic function of the date
the system clock returns and the stored records: two runs on equal book
states at the same clock date produce identical output sequences. -/
theorem ub_deterministic (b1 b2 : List (String × Record)) (t : PyDate)
    (h : b1 = b2) :
    getUpcomingBirthdays b1 t = getUpcomingBirthdays b2 t := by
  rw [h]

/-- C2 witness: determinism instantiated at the concrete book. -/
theorem ub_deterministic_witness :
    getUpcomingBirthdays bookA ⟨2024, 1, 1⟩
      = getUpcomingBirthdays bookA ⟨2024, 1, 1⟩ :=
  ub_deterministic bookA bookA ⟨2024, 1, 1⟩ rfl

/-! ### The Feb 29 failure of get_upcoming_birthdays -/

/-- A record whose birthday, 29.02.2024, was validly constructed through the
embedded `add_birthday` (2024 is a leap year). -/
def leapRec : Record := applyOp (Record.mkNew "Leap") (.addBirthday "29.02.2024")

/-- C10: at a reachable book state holding a Feb 29 birthday, running the
query at a date in the non-leap year 2025 makes `replace(year=2025)` raise
`ValueError`, so the query raises instead of returning a list: it is not
total over validly constructed birthdays. -/
theorem ub_feb29_raises :
    leapRec.birthday = some ⟨2024, 2, 29⟩ ∧
    isLeap 2025 = false ∧
    getUpcomingBirthdays (addRecord [] leapRec) ⟨2025, 3, 10⟩
      = .error "ValueError: day is out of range for month" :=
  ⟨rfl, rfl, rfl⟩

/-! ### Distinctness of stored phones under operation traces -/

theorem removeList_sublist (p : String) :
    ∀ l : List String, List.Sublist (removeList p l).1 l := by
  intro l
  induction l with
  | nil => simp [removeList]
  | cons q rest ih =>
    by_cases h : q = p
    · simp only [removeList, if_pos h]
      exact List.sublist_cons_self q rest
    · simp only [removeList, if_neg h]
      exact ih.cons₂ q

theorem addPhone_nodup (r : Record) (raw : String) (h : r.phones.Nodup) :
    (applyOp r (.addPhone raw)).phones.Nodup := by
  rw [applyOp]
  by_cases hf : (r.findPhone raw).isSome = true
  · rw [Record.addPhone, if_pos hf]
    exact h
  · have hmem : raw ∉ r.phones := fun hm => hf ((findPhone_isSome_iff r raw).mpr hm)
    rw [Record.addPhone, if_neg hf]
    cases hc : Phone.construct raw with
    | error e => exact h
    | ok v =>
      have hv : v = raw := Phone.construct_ok_eq hc
      subst hv
      show (r.phones ++ [v]).Nodup
      exact h.append (by simp) (by simpa using hmem)

theorem editList_mem (old new : String) :
    ∀ (l l2 : List String) (b : Bool),
      editList old new l = .ok (l2, b) → ∀ x ∈ l2, x ∈ l ∨ x = new := by
  intro l
  induction l with
  | nil =>
    intro l2 b h x hx
    simp only [editList, Except.ok.injEq, Prod.mk.injEq] at h
    rw [← h.1] at hx
    exact absurd hx (List.not_mem_nil x)
  | cons p rest ih =>
    intro l2 b h x hx
    by_cases hp : p = old
    · rw [editList, if_pos hp] at h
      cases hc : Phone.construct new with
      | error e => rw [hc] at h; exact absurd h (by simp)
      | ok v =>
        have hv : v = new := Phone.construct_ok_eq hc
        rw [hc] at h
        simp only [Except.ok.injEq, Prod.mk.injEq] at h
        rw [← h.1, hv] at hx
        rcases List.mem_cons.mp hx with h1 | h1
        · exact Or.inr h1
        · exact Or.inl (List.mem_cons_of_mem p h1)
    · rw [editList, if_neg hp] at h
      cases he : editList old new rest with
      | error e => rw [he] at h; exact absurd h (by simp)
      | ok lb =>
        rw [he] at h
        simp only [Except.ok.injEq, Prod.mk.injEq] at h
        rw [← h.1] at hx
        rcases List.mem_cons.mp hx with h1 | h1
        · exact Or.inl (h1 ▸ List.mem_cons_self p rest)
        · rcases ih lb.1 lb.2 he x h1 with h2 | h2
          · exact Or.inl (List.mem_cons_of_mem p h2)
          · exact Or.inr h2

theorem editList_nodup (old new : String) :
    ∀ (l l2 : List String) (b : Bool), l.Nodup →
      (new = old ∨ new ∉ l) → editList old new l = .ok (l2, b) → l2.Nodup := by
  intro l
  induction l with
  | nil =>
    intro l2 b _ _ h
    simp only [editList, Except.ok.injEq, Prod.mk.injEq] at h
    rw [← h.1]
    exact List.nodup_nil
  | cons p rest ih =>
    intro l2 b hnd hsafe h
    have hndr : rest.Nodup := (List.nodup_cons.mp hnd).2
    have hpr : p ∉ rest := (List.nodup_cons.mp hnd).1
    by_cases hp : p = old
    · rw [editList, if_pos hp] at h
      cases hc : Phone.construct new with
      | error e => rw [hc] at h; exact absurd h (by simp)
      | ok v =>
        have hv : v = new := Phone.construct_ok_eq hc
        rw [hc] at h
        simp only [Except.ok.injEq, Prod.mk.injEq] at h
        rw [← h.1, hv]
        rw [List.nodup_cons]
        refine ⟨?_, hndr⟩
        rcases hsafe with h1 | h1
        · rw [h1, ← hp]; exact hpr
        · exact fun hm => h1 (List.mem_cons_of_mem p hm)
    · rw [editList, if_neg hp] at h
      cases he : editList old new rest with
      | error e => rw [he] at h; exact absurd h (by simp)
      | ok lb =>
        rw [he] at h
        simp only [Except.ok.injEq, Prod.mk.injEq] at h
        rw [← h.1, List.nodup_cons]
        have hsafe' : new = old ∨ new ∉ rest := by
          rcases hsafe with h1 | h1
          · exact Or.inl h1
          · exact Or.inr (fun hm => h1 (List.mem_cons_of_mem p hm))
        refine ⟨?_, ih lb.1 lb.2 hndr hsafe' he⟩
        intro hm
        rcases editList_mem old new rest lb.1 lb.2 he p hm with h1 | h1
        · exact hpr h1
        · rcases hsafe with h2 | h2
          · exact hp (h1.trans h2)
          · exact h2 (h1 ▸ List.mem_cons_self p rest)

theorem applyOp_nodup (r : Record) (op : Op) (h : r.phones.Nodup)
    (hsafe : (match op with
      | .editPhone old new => (new == old || !(r.phones.contains new)) = true
      | _ => True)) :
    (applyOp r op).phones.Nodup := by
  cases op with
  | addPhone raw => exact addPhone_nodup r raw h
  | removePhone raw =>
    rw [applyOp, Record.removePhone]
    exact h.sublist (removeList_sublist raw r.phones)
  | editPhone old new =>
    rw [applyOp]
    cases he : r.editPhone old new with
    | error e => exact h
    | ok rb =>
      rw [Record.editPhone] at he
      cases hl : editList old new r.phones with
      | error e => rw [hl] at he; exact absurd he (by simp)
      | ok lb =>
        rw [hl] at he
        simp only [Except.ok.injEq] at he
        have hsafe' : new = old ∨ new ∉ r.phones := by
          simp only [Bool.or_eq_true, beq_iff_eq, Bool.not_eq_true'] at hsafe
          rcases hsafe with h1 | h1
          · exact Or.inl h1
          · refine Or.inr (fun hm => ?_)
            have h2 : r.phones.elem new = true := List.elem_iff.mpr hm
            rw [show r.phones.contains new = r.phones.elem new from rfl, h2] at h1
            cases h1
        have := editList_nodup old new r.phones lb.1 lb.2 h hsafe' hl
        rw [← he]
        exact this
  | addBirthday raw =>
    rw [applyOp]
    cases hb : r.addBirthday raw with
    | error e => exact h
    | ok r2 =>
      rw [Record.addBirthday] at hb
      cases hc : Birthday.construct raw with
      | error e => rw [hc] at hb; exact absurd hb (by simp)
      | ok b =>
        rw [hc] at hb
        simp only [Except.ok.injEq] at hb
        rw [← hb]
        exact h

/-! ### Characterizing the emissions of get_upcoming_birthdays -/

theorem processEntry_eq_some_iff (today : PyDate) (r : Record) (s : String) :
    processEntry today r = .ok (some s) ↔
      ∃ b bty, r.birthday = some b ∧ birthdayThisYear today b = .ok bty ∧
        0 ≤ daysFrom today bty ∧ daysFrom today bty ≤ 7 ∧
        s = pyStrftime (weekendAdjust bty) := by
  cases hb : r.birthday with
  | none => simp [processEntry, hb]
  | some b =>
    simp only [processEntry, hb]
    cases hy : birthdayThisYear today b with
    | error e =>
      simp only [hy]
      constructor
      · intro h; exact absurd h (by simp)
      · rintro ⟨b', bty, hb', hy', h1, h2, hs⟩
        injection hb' with hb2
        subst hb2
        rw [hy] at hy'
        exact absurd hy' (by simp)
    | ok bty =>
      simp only [hy]
      split_ifs with hw
      · constructor
        · intro h
          have h2 : some (pyStrftime (weekendAdjust bty)) = some s :=
            congrArg (fun x => match x with | .ok v => v | .error _ => none) h
          injection h2 with h3
          exact ⟨b, bty, rfl, hy, hw.1, hw.2, h3.symm⟩
        · rintro ⟨b', bty', hb', hy', h1, h2, hs⟩
          injection hb' with hb2
          subst hb2
          rw [hy] at hy'
          injection hy' with hy2
          subst hy2
          rw [hs]
      · constructor
        · intro h
          exact absurd h (by simp)
        · rintro ⟨b', bty', hb', hy', h1, h2, hs⟩
          injection hb' with hb2
          subst hb2
          rw [hy] at hy'
          injection hy' with hy2
          subst hy2
          exact absurd ⟨h1, h2⟩ hw

theorem ub_names_sublist (today : PyDate) :
    ∀ (book : List (String × Record)) (out : List UBEntry),
      getUpcomingBirthdays book today = .ok out →
      List.Sublist (out.map UBEntry.name) (book.map Prod.fst) := by
  intro book
  induction book with
  | nil =>
    intro out h
    have h' : (.ok [] : Except String (List UBEntry)) = .ok out := h
    injection h' with h2
    rw [← h2]
    simp
  | cons e rest ih =>
    obtain ⟨n1, r1⟩ := e
    intro out hrun
    rw [getUpcomingBirthdays] at hrun
    cases hp : processEntry today r1 with
    | error e2 =>
      rw [hp] at hrun
      exact absurd hrun (by simp)
    | ok o =>
      rw [hp] at hrun
      cases o with
      | none =>
        have hrun' : getUpcomingBirthdays rest today = .ok out := hrun
        simpa using List.Sublist.cons n1 (ih out hrun')
      | some s0 =>
        cases ht : getUpcomingBirthdays rest today with
        | error e2 =>
          rw [ht] at hrun
          exact absurd hrun (by simp)
        | ok tail =>
          rw [ht] at hrun
          have hrun' : (.ok (⟨n1, s0⟩ :: tail) : Except String (List UBEntry))
              = .ok out := hrun
          injection hrun' with h2
          rw [← h2]
          simpa using List.Sublist.cons₂ n1 (ih tail ht)

theorem ub_characterization (today : PyDate) :
    ∀ book : List (String × Record),
      (book.map Prod.fst).Nodup →
      ∀ out, getUpcomingBirthdays book today = .ok out →
      ∀ n r, (n, r) ∈ book →
      (((∃ s, (⟨n, s⟩ : UBEntry) ∈ out) ↔
        (∃ b bty, r.birthday = some b ∧ birthdayThisYear today b = .ok bty ∧
          0 ≤ daysFrom today bty ∧ daysFrom today bty ≤ 7)) ∧
       (∀ s, (⟨n, s⟩ : UBEntry) ∈ out →
        ∃ b bty, r.birthday = some b ∧ birthdayThisYear today b = .ok bty ∧
          s = pyStrftime (weekendAdjust bty))) := by
  intro book
  induction book with
  | nil => intro _ out _ n r hmem; exact absurd hmem (List.not_mem_nil _)
  | cons e rest ih =>
    obtain ⟨n1, r1⟩ := e
    intro hnd out hrun n r hmem
    have hn1 : n1 ∉ rest.map Prod.fst :=
      (List.nodup_cons.mp (by simpa using hnd)).1
    have hndr : (rest.map Prod.fst).Nodup :=
      (List.nodup_cons.mp (by simpa using hnd)).2
    rw [getUpcomingBirthdays] at hrun
    cases hp : processEntry today r1 with
    | error e2 =>
      rw [hp] at hrun
      exact absurd hrun (by simp)
    | ok o =>
      rw [hp] at hrun
      cases o with
      | none =>
        have hrun' : getUpcomingBirthdays rest today = .ok out := hrun
        rcases List.mem_cons.mp hmem with heq | hmem'
        · obtain ⟨hn, hr⟩ := Prod.mk.injEq .. ▸ heq
          subst hn
          subst hr
          have hnone : ∀ s, (⟨n, s⟩ : UBEntry) ∉ out := by
            intro s hs
            have hsub := ub_names_sublist today rest out hrun'
            have : n ∈ out.map UBEntry.name := List.mem_map_of_mem UBEntry.name hs
            exact hn1 (hsub.subset this)
          constructor
          · constructor
            · rintro ⟨s, hs⟩
              exact absurd hs (hnone s)
            · rintro ⟨b, bty, h1, h2, h3, h4⟩
              have := (processEntry_eq_some_iff today r
                  (pyStrftime (weekendAdjust bty))).mpr ⟨b, bty, h1, h2, h3, h4, rfl⟩
              rw [hp] at this
              exact absurd this (by simp)
          · intro s hs
            exact absurd hs (hnone s)
        · exact ih hndr out hrun' n r hmem'
      | some s0 =>
        cases ht : getUpcomingBirthdays rest today with
        | error e2 =>
          rw [ht] at hrun
          exact absurd hrun (by simp)
        | ok tail =>
          rw [ht] at hrun
          have hrun' : (.ok (⟨n1, s0⟩ :: tail) : Except String (List UBEntry))
              = .ok out := hrun
          injection hrun' with h2
          subst h2
          rcases List.mem_cons.mp hmem with heq | hmem'
          · obtain ⟨hn, hr⟩ := Prod.mk.injEq .. ▸ heq
            subst hn
            subst hr
            obtain ⟨b, bty, hb, hy, h1, h2, hs0⟩ :=
              (processEntry_eq_some_iff today r s0).mp hp
            refine ⟨⟨fun _ => ⟨b, bty, hb, hy, h1, h2⟩,
              fun _ => ⟨s0, List.mem_cons_self _ _⟩⟩, ?_⟩
            intro s hs
            rcases List.mem_cons.mp hs with he | hi
            · injection he with he1 he2
              exact ⟨b, bty, hb, hy, he2.trans hs0⟩
            · exfalso
              have hsub := ub_names_sublist today rest tail ht
              have : n ∈ tail.map UBEntry.name := List.mem_map_of_mem UBEntry.name hi
              exact hn1 (hsub.subset this)
          · have hnmem : n ∈ rest.map Prod.fst := List.mem_map_of_mem Prod.fst hmem'
            have hne : n ≠ n1 := fun he => hn1 (he ▸ hnmem)
            have key := ih hndr tail ht n r hmem'
            have hshift : ∀ s, (⟨n, s⟩ : UBEntry) ∈ (⟨n1, s0⟩ : UBEntry) :: tail ↔
                (⟨n, s⟩ : UBEntry) ∈ tail := by
              intro s
              constructor
              · intro hs
                rcases List.mem_cons.mp hs with he | hi
                · injection he with he1 he2
                  exact absurd he1 hne
                · exact hi
              · intro hi
                exact List.mem_cons_of_mem _ hi
            constructor
            · rw [show (∃ s, (⟨n, s⟩ : UBEntry) ∈ (⟨n1, s0⟩ : UBEntry) :: tail) ↔
                  (∃ s, (⟨n, s⟩ : UBEntry) ∈ tail) from exists_congr hshift]
              exact key.1
            · intro s hs
              exact key.2 s ((hshift s).mp hs)

/-- C1: for a book with distinct names and a run of the query that returns
normally, a stored record is emitted iff it has a birthday whose projection
into the window year (moved to next year when strictly before today)
succeeds with `delta = (B_this_year - today).days` satisfying
`0 ≤ delta ≤ 7`, both ends inclusive; every emitted congratulation date is
that projected occurrence shifted forward by `7 - weekday` days when its
Monday-based weekday is 5 or 6 and unshifted otherwise; records without a
birthday are never emitted (the right-hand side requires a birthday). -/
theorem upcoming_birthdays_window
    (book : List (String × Record)) (today : PyDate) (out : List UBEntry)
    (hnd : (book.map Prod.fst).Nodup)
    (hrun : getUpcomingBirthdays book today = .ok out)
    (n : String) (r : Record) (hmem : (n, r) ∈ book) :
    ((∃ s, (⟨n, s⟩ : UBEntry) ∈ out) ↔
      (∃ b bty, r.birthday = some b ∧ birthdayThisYear today b = .ok bty ∧
        0 ≤ daysFrom today bty ∧ daysFrom today bty ≤ 7)) ∧
    (∀ s, (⟨n, s⟩ : UBEntry) ∈ out →
      ∃ b bty, r.birthday = some b ∧ birthdayThisYear today b = .ok bty ∧
        s = pyStrftime (weekendAdjust bty)) :=
  ub_characterization today book hnd out hrun n r hmem

/-- Record for "Anna" with birthday 20.05.2024, built through add_birthday. -/
def annaRec : Record := applyOp (Record.mkNew "Anna") (.addBirthday "20.05.2024")

/-- C1 witness: Anna (birthday 20.05.2024, a Monday, delta 3 from Friday
17.05.2024) is emitted. -/
theorem upcoming_birthdays_window_witness :
    ∃ s, (⟨"Anna", s⟩ : UBEntry) ∈ ([⟨"Anna", "20.05.2024"⟩] : List UBEntry) :=
  (upcoming_birthdays_window [("Anna", annaRec)] ⟨2024, 5, 17⟩
      [⟨"Anna", "20.05.2024"⟩] (by decide) rfl "Anna" annaRec
      (by decide)).1.mpr
    ⟨⟨2024, 5, 20⟩, ⟨2024, 5, 20⟩, rfl, rfl, by decide, by decide⟩

/-- C9: the emitted sequence lists contacts in the book's iteration
(insertion) order: the emitted names form a sublist of the book's key
sequence, in order, rather than being sorted by date or name. -/
theorem ub_insertion_order
    (book : List (String × Record)) (today : PyDate) (out : List UBEntry)
    (hrun : getUpcomingBirthdays book today = .ok out) :
    List.Sublist (out.map UBEntry.name) (book.map Prod.fst) :=
  ub_names_sublist today book out hrun

/-- Record for "Zed" with birthday 23.05.2024. -/
def zedRec : Record := applyOp (Record.mkNew "Zed") (.addBirthday "23.05.2024")

/-- Record for "Amy" with birthday 18.05.2024. -/
def amyRec : Record := applyOp (Record.mkNew "Amy") (.addBirthday "18.05.2024")

/-- C9 witness: with Zed inserted before Amy, the output keeps the insertion
order Zed, Amy even though Amy's congratulation date (20.05.2024) precedes
Zed's (23.05.2024) and "Amy" precedes "Zed" alphabetically. -/
theorem ub_insertion_order_witness :
    List.Sublist
      (([⟨"Zed", "23.05.2024"⟩, ⟨"Amy", "20.05.2024"⟩] : List UBEntry).map
        UBEntry.name)
      ([("Zed", zedRec), ("Amy", amyRec)].map Prod.fst) :=
  ub_insertion_order [("Zed", zedRec), ("Amy", amyRec)] ⟨2024, 5, 17⟩
    [⟨"Zed", "23.05.2024"⟩, ⟨"Amy", "20.05.2024"⟩] rfl

theorem runOps_nodup :
    ∀ (ops : List Op) (r : Record), r.phones.Nodup → editSafe r ops = true →
      (runOps r ops).phones.Nodup := by
  intro ops
  induction ops with
  | nil => intro r h _; exact h
  | cons op rest ih =>
    intro r h hsafe
    rw [editSafe, Bool.and_eq_true] at hsafe
    have hstep : (applyOp r op).phones.Nodup := by
      cases op with
      | addPhone raw => exact addPhone_nodup r raw h
      | removePhone raw => exact applyOp_nodup r (.removePhone raw) h True.intro
      | addBirthday raw => exact applyOp_nodup r (.addBirthday raw) h True.intro
      | editPhone old new =>
        exact applyOp_nodup r (.editPhone old new) h hsafe.1
    exact ih (applyOp r op) hstep hsafe.2

/-- C3 counterexample: starting from a fresh Record, the reachable trace
add_phone "1111111111"; add_phone "2222222222";
edit_phone "2222222222" -> "1111111111" leaves the phone list holding the
value "1111111111" twice, because edit_phone performs no duplicate check. -/
theorem phones_duplicate_reachable :
    (runOps (Record.mkNew "A")
        [.addPhone "1111111111", .addPhone "2222222222",
         .editPhone "2222222222" "1111111111"]).phones
      = ["1111111111", "1111111111"] ∧
    ¬ (runOps (Record.mkNew "A")
        [.addPhone "1111111111", .addPhone "2222222222",
         .editPhone "2222222222" "1111111111"]).phones.Nodup :=
  ⟨rfl, by decide⟩

/-- C3 (amended): the phone list of a Record built from a fresh Record by
any sequence of add_phone, remove_phone, edit_phone and add_birthday
operations contains no two equal values, provided every edit_phone in the
trace either rewrites a value to itself or introduces a value not stored at
that moment (`editSafe`); add_phone, remove_phone and add_birthday alone
always preserve distinctness, while an unrestricted edit_phone can
introduce a duplicate. -/
theorem phones_nodup_of_editSafe (name : String) (ops : List Op)
    (hs : editSafe (Record.mkNew name) ops = true) :
    (runOps (Record.mkNew name) ops).phones.Nodup :=
  runOps_nodup ops (Record.mkNew name) List.nodup_nil hs

/-- C3 witness: a concrete safe trace exercising all four operations. -/
theorem phones_nodup_of_editSafe_witness :
    editSafe (Record.mkNew "W")
        [.addPhone "1234567890", .addPhone "0987654321",
         .removePhone "1234567890", .addBirthday "01.01.2000",
         .editPhone "0987654321" "1234567890"] = true ∧
    (runOps (Record.mkNew "W")
        [.addPhone "1234567890", .addPhone "0987654321",
         .removePhone "1234567890", .addBirthday "01.01.2000",
         .editPhone "0987654321" "1234567890"]).phones.Nodup :=
  ⟨by decide,
   phones_nodup_of_editSafe "W"
     [.addPhone "1234567890", .addPhone "0987654321",
      .removePhone "1234567890", .addBirthday "01.01.2000",
      .editPhone "0987654321" "1234567890"] (by decide)⟩
